import Mathlib

/-!
Verification of the ranking/weight-tuning engine of the modu_DL_RAG
repository, shallowly embedded from its two source files:
`src/rag_pipeline.py` (inference-time parsing and scoring) and
`src/optim.py` (the `AutoRanker`: optimizer-side scoring and the proxy
objective used by `differential_evolution`).

Modelling conventions:
* Python strings are `String`; `a in b` on strings is the contiguous
  substring test `substr`.
* Metadata is a record of optional fields (`none` models an absent key).
  The fields `level`, `time`, `method`, `situation` hold the strings this
  repository's recipe data stores there; `views` may hold an int or a
  string, since both scorers run it through `int(...)`.  A document whose
  `metadata` attribute is `None` (rather than a dict) is not modelled:
  `AutoRanker._objective` would crash on such a document before any of the
  behaviour claimed here is reached, and `score` / `score_doc` replace it
  by `{}`, which coincides with a record of absent fields.
* Fallible Python code (an uncaught `ValueError` from `int`, NaN from
  `np.mean([])` poisoning every later arithmetic step) is modelled with
  `Option`: `none` is "no real number comes out of this computation".
* Python floats are modelled as real numbers (`ℝ`) where `np.log1p`
  appears, and as rationals (`ℚ`) in `score_doc`, whose arithmetic is
  rational.
* `sorted(key=f, reverse=True)` is modelled by `sortDesc f`, an insertion
  sort that places an earlier element before any later element with an
  equal or smaller key.  A stable descending sort is extensionally unique,
  so this is the function Python's stable `sorted`/`list.sort` with
  `reverse=True` computes.
-/

namespace ModuRAG

/-! ## Python string primitives -/

/-- Contiguous occurrence of one character list inside another: `needle`
occurs as a prefix of some suffix of `hay`. -/
def occursIn (needle : List Char) : List Char → Bool
  | [] => needle.isEmpty
  | b :: bs => needle.isPrefixOf (b :: bs) || occursIn needle bs

/-- Python `needle in hay` on strings: contiguous substring test. -/
def substr (needle hay : String) : Bool :=
  occursIn needle.toList hay.toList

/-- Drop leading and trailing whitespace characters of a character list. -/
def trimChars (l : List Char) : List Char :=
  ((l.dropWhile Char.isWhitespace).reverse.dropWhile Char.isWhitespace).reverse

/-- Python `str.strip()`: drop leading and trailing whitespace. -/
def pyStrip (s : String) : String :=
  String.mk (trimChars s.toList)

/-- Decimal value of a run of digit characters. -/
def digitsToNat (ds : List Char) : Nat :=
  ds.foldl (fun n c => 10 * n + (c.toNat - 48)) 0

/-- A Python metadata value: the fields this engine reads hold strings or
ints. -/
inductive PyVal where
  | intV (n : Int)
  | strV (s : String)
deriving DecidableEq

/-- Python `int(x)` for an int or a string: a string parses as an optionally
signed decimal numeral, surrounding whitespace ignored; any other string
raises `ValueError`, modelled as `none`.  (Numeral underscores and
non-ASCII digits, which this repository's data never uses, are not
modelled.) -/
def pyInt : PyVal → Option Int
  | .intV n => some n
  | .strV s =>
    match (pyStrip s).toList with
    | '-' :: ds =>
      if ds ≠ [] ∧ ds.all Char.isDigit then some (-(digitsToNat ds : Int)) else none
    | '+' :: ds =>
      if ds ≠ [] ∧ ds.all Char.isDigit then some (digitsToNat ds) else none
    | ds =>
      if ds ≠ [] ∧ ds.all Char.isDigit then some (digitsToNat ds) else none

/-- Python truthiness of a metadata value (`0`, `""` are falsy). -/
def pyTruthy : PyVal → Bool
  | .intV n => n ≠ 0
  | .strV s => s ≠ ""

/-! ## Data model -/

/-- The metadata fields read by the engine; `none` models an absent key. -/
structure Metadata where
  level : Option String
  views : Option PyVal
  time : Option String
  method : Option String
  situation : Option String
deriving DecidableEq

/-- A retrieved document: free text plus metadata. -/
structure Doc where
  page_content : String
  metadata : Metadata
deriving DecidableEq

/-! ## Stable descending sort (Python `sorted(key=f, reverse=True)`) -/

/-- Insert `a` (an element occurring earlier in the input than everything in
`l`) into a list: `a` goes in front of the first element whose key does not
exceed `a`'s key, so ties keep input order. -/
def insertDesc {α β : Type} [LinearOrder β] (f : α → β) (a : α) : List α → List α
  | [] => [a]
  | b :: bs => if f b ≤ f a then a :: b :: bs else b :: insertDesc f a bs

/-- Stable descending sort by the key `f`; extensionally Python's
`sorted(key=f, reverse=True)`, which is the unique stable descending sort. -/
def sortDesc {α β : Type} [LinearOrder β] (f : α → β) : List α → List α
  | [] => []
  | a :: l => insertDesc f a (sortDesc f l)

/-! ## rag_pipeline.py -/

/-- The delimiter class of `re.split(r"[,/\\|\n]+", ...)` in
`parse_ingredients`. -/
def isDelim (c : Char) : Bool :=
  c = ',' || c = '/' || c = '\\' || c = '|' || c = '\n'

/-- `re.split(r"[,/\\|\n]+", text)`: split on maximal runs of delimiter
characters, keeping (possibly empty) boundary fields.  A delimiter opens a
fresh empty field only when it is the last character of its run; an earlier
delimiter of the same run contributes nothing. -/
def splitDelimRuns : List Char → List (List Char)
  | [] => [[]]
  | c :: rest =>
    if isDelim c then
      match rest with
      | d :: _ => if isDelim d then splitDelimRuns rest else [] :: splitDelimRuns rest
      | [] => [] :: splitDelimRuns rest
    else
      match splitDelimRuns rest with
      | [] => [[c]]
      | t :: ts => (c :: t) :: ts

/-- `parse_ingredients` (rag_pipeline.py, lines 40-45). -/
def parse_ingredients (text : String) : List String :=
  if text = "" ∨ pyStrip text ∈ (["없음", "none", "None"] : List String) then []
  else
    (splitDelimRuns text.toList).filterMap fun piece =>
      let s := pyStrip (String.mk piece)
      if s = "" then none else some s

/-- `normalize_level` (rag_pipeline.py, lines 47-49): `(level or "").strip()`. -/
def normalize_level (level : String) : String := pyStrip level

/-- One attempt of `re.search(r"(\d+)\s*분", t)` at the current position:
digits here, then optional whitespace, then the character 분.  A shorter
digit group cannot succeed where the maximal one fails (the next character
would be a digit, not 분 or whitespace), so the greedy group is exactly the
maximal digit run. -/
def bunMatchAt (cs : List Char) : Option Nat :=
  match cs with
  | [] => none
  | c :: _ =>
    if c.isDigit then
      match (cs.dropWhile Char.isDigit).dropWhile Char.isWhitespace with
      | '분' :: _ => some (digitsToNat (cs.takeWhile Char.isDigit))
      | _ => none
    else none

/-- Leftmost-match search for `(\d+)\s*분` over the string. -/
def bunSearch : List Char → Option Nat
  | [] => none
  | c :: rest =>
    match bunMatchAt (c :: rest) with
    | some n => some n
    | none => bunSearch rest

/-- `time_to_minutes` (rag_pipeline.py, lines 51-65): empty field, a field
containing 정보 ("no info"), or a field with no `(\d+)\s*분` match all map to
the sentinel 9999; otherwise the matched minutes. -/
def time_to_minutes (time_str : String) : Nat :=
  if time_str = "" then 9999
  else
    let t := pyStrip time_str
    if substr "정보" t then 9999
    else
      match bunSearch t.toList with
      | some n => n
      | none => 9999

/-- The difficulty tiers of `score_doc` (rag_pipeline.py, lines 85-91). -/
def level_score_doc (level : String) : ℚ :=
  if level ∈ (["초급", "아무나", "쉬움", "Easy"] : List String) then 5
  else if level = "중급" then 2 else 0

/-- `pop_score` of `score_doc` (line 95): `min(5.0, views / 5000.0)`. -/
def pop_score_doc (views : Int) : ℚ := min 5 ((views : ℚ) / 5000)

/-- `style_score` of `score_doc` (lines 97-101): 0 for an empty hint or the
sentinel 상관없음 ("no preference"), else 1.5 exactly when the hint occurs in
the content, the situation field, or the method field. -/
def style_score_doc (style_hint text situation method : String) : ℚ :=
  if style_hint ≠ "" ∧ style_hint ≠ "상관없음" ∧
      (substr style_hint text || substr style_hint situation ||
        substr style_hint method) = true
  then 3 / 2 else 0

/-- `time_penalty` of `score_doc` (lines 103-110): a step function of the
parsed cook-time minutes. -/
def time_penalty_doc (cook_time : Nat) : ℚ :=
  if cook_time ≤ 30 then 0 else if cook_time ≤ 60 then 1 / 2 else 3 / 2

/-- Python `int(md.get("views", 0) or 0)` (line 75): falsy values (absent
key, `0`, `""`) collapse to 0 before the `int` conversion, which still
raises (`none`) on a non-numeric non-empty string. -/
def pyIntOr0 (views : Option PyVal) : Option Int :=
  let v := views.getD (.intV 0)
  if pyTruthy v then pyInt v else some 0

/-- `score_doc` (rag_pipeline.py, lines 70-122).  The returned debug dict is
display-only and omitted; `none` models an uncaught exception from the
`views` conversion. -/
def score_doc (doc : Doc) (user_ings : List String) (style_hint : String) :
    Option ℚ :=
  let md := doc.metadata
  let text := doc.page_content
  let level := normalize_level (md.level.getD "")
  match pyIntOr0 md.views with
  | none => none
  | some views =>
    let cook_time := time_to_minutes (md.time.getD "")
    let ing_hit : Nat := user_ings.countP fun ing => ing ≠ "" && substr ing text
    some ((ing_hit : ℚ) * 3 + level_score_doc level * (3 / 2)
      + pop_score_doc views * 1
      + style_score_doc style_hint text (md.situation.getD "") (md.method.getD "")
      - time_penalty_doc cook_time)

/-- The decorate stage and stable descending sort of `suggest_menus`
(rag_pipeline.py, lines 164-170): every candidate is scored in input order
and the `(score, doc)` pairs are sorted by score, descending, stably. -/
def suggest_sorted (docs : List Doc) (user_ings : List String)
    (style_hint : String) : Option (List (ℚ × Doc)) :=
  (docs.mapM fun d => (score_doc d user_ings style_hint).map fun s => (s, d)) |>.map
    (sortDesc Prod.fst)

/-- The ranked top-5 of `suggest_menus` (line 171): the first five documents
of the stable descending sort. -/
def suggest_rank (docs : List Doc) (user_ings : List String)
    (style_hint : String) : Option (List Doc) :=
  (suggest_sorted docs user_ings style_hint).map fun sorted =>
    (sorted.take 5).map Prod.snd

/-! ## optim.py: the AutoRanker -/

/-- The weight vector `[w_ing, w_level, w_pop, w_style, p_time]`. -/
structure Params where
  w_ing : ℝ
  w_level : ℝ
  w_pop : ℝ
  w_style : ℝ
  p_time : ℝ

/-- `AutoRanker.__init__` (optim.py, line 9): `[2.0, 1.0, 0.5, 1.0, 1.0]`. -/
noncomputable def initParams : Params := ⟨2, 1, 1 / 2, 1, 1⟩

/-- The `AutoRanker` object's only state: its weight vector. -/
structure AutoRanker where
  params : Params

/-- `AutoRanker._level_score` (optim.py, lines 11-16). -/
noncomputable def level_scoreA (level : String) : ℝ :=
  if level ∈ (["초급", "아무나", "쉬움", "Easy"] : List String) then 1
  else if level = "중급" then 1 / 2 else 0

/-- `AutoRanker._parse_time` (optim.py, lines 18-23): a substring test on
the raw field, not a numeric parse. -/
def parse_timeA (t : String) : ℝ :=
  if substr "30" t then 0 else if substr "60" t then 1 else 2

/-- `ing_hit` of `AutoRanker.score` (optim.py, line 31): the number of
query ingredients whose stripped text occurs in the content.  An entry that
strips to the empty string occurs in every content text. -/
def ing_hitA (user_ings : List String) (text : String) : Nat :=
  user_ings.countP fun ing => substr (pyStrip ing) text

/-- `style_score` of `AutoRanker.score` (optim.py, lines 35-39): any
non-empty hint scores 1 on a substring match against content, method or
situation; there is no no-preference sentinel check here. -/
def style_scoreA (style_hint text method situation : String) : ℝ :=
  if style_hint ≠ "" ∧
      (substr style_hint text || substr style_hint method ||
        substr style_hint situation) = true
  then 1 else 0

/-- `AutoRanker.score` (optim.py, lines 27-51).  `np.log1p x` is
`Real.log (1 + x)`; `int(views)` may raise, modelled by `none`. -/
noncomputable def scoreA (p : Params) (doc : Doc) (user_ings : List String)
    (style_hint : String) : Option ℝ :=
  let md := doc.metadata
  let text := doc.page_content
  match pyInt (md.views.getD (.intV 0)) with
  | none => none
  | some views =>
    some (p.w_ing * ing_hitA user_ings text
      + p.w_level * level_scoreA (md.level.getD "")
      + p.w_pop * Real.log (1 + (views : ℝ))
      + p.w_style * style_scoreA style_hint text (md.method.getD "")
          (md.situation.getD "")
      - p.p_time * parse_timeA (md.time.getD ""))

/-- The decorate stage and stable descending sort of `AutoRanker._objective`
(optim.py, lines 58-60): `sorted(docs, key=lambda d: self.score(...),
reverse=True)`.  The key is evaluated once per document, in input order; an
exception inside the key aborts the whole sort (`none`). -/
noncomputable def rankedA (p : Params) (docs : List Doc)
    (user_ings : List String) (style_hint : String) : Option (List Doc) :=
  (docs.mapM fun d => (scoreA p d user_ings style_hint).map fun s => (d, s)) |>.map
    fun scored => (sortDesc Prod.snd scored).map Prod.fst

/-- `top = ranked[:5]` (optim.py, line 61). -/
noncomputable def topA (p : Params) (docs : List Doc) (user_ings : List String)
    (style_hint : String) : Option (List Doc) :=
  (rankedA p docs user_ings style_hint).map (List.take 5)

/-- `np.mean` over a list of floats: the arithmetic mean; the empty list
yields NaN (`none`), which poisons all later arithmetic of `_objective`. -/
noncomputable def npMean (l : List ℝ) : Option ℝ :=
  if l.isEmpty then none else some (l.sum / l.length)

/-- `views` aggregate of `_objective` (optim.py, line 63):
`np.mean([int(d.metadata.get("views", 0)) for d in top])`. -/
noncomputable def views_meanA (top : List Doc) : Option ℝ :=
  (top.mapM fun d => pyInt (d.metadata.views.getD (.intV 0))) >>= fun vs =>
    npMean (vs.map fun n : ℤ => (n : ℝ))

/-- Per-document ingredient count of `_objective` (optim.py, line 66):
`sum(1 for ing in user_ings if ing in (d.page_content or ""))` — the raw
entry, not stripped, and a count, not a fraction. -/
def ing_countA (user_ings : List String) (text : String) : Nat :=
  user_ings.countP fun ing => substr ing text

/-- `ing_match` aggregate of `_objective` (optim.py, lines 65-67). -/
noncomputable def ing_meanA (user_ings : List String) (top : List Doc) : Option ℝ :=
  npMean (top.map fun d => (ing_countA user_ings d.page_content : ℝ))

/-- Per-document style indicator of `_objective` (optim.py, lines 70-78). -/
def style_matchA (style_hint : String) (d : Doc) : Bool :=
  style_hint ≠ "" && (substr style_hint d.page_content
    || substr style_hint (d.metadata.situation.getD "")
    || substr style_hint (d.metadata.method.getD ""))

/-- `style_match` aggregate of `_objective` (optim.py, lines 69-81). -/
noncomputable def style_meanA (style_hint : String) (top : List Doc) : Option ℝ :=
  npMean (top.map fun d => if style_matchA style_hint d then (1 : ℝ) else 0)

/-- Per-document beginner-level indicator of `_objective` (optim.py, line
86): `d.metadata.get("level")` with no default, so an absent key compares
unequal to every label. -/
def level_matchA (d : Doc) : Bool :=
  match d.metadata.level with
  | some s => s ∈ (["초급", "아무나", "쉬움", "Easy"] : List String)
  | none => false

/-- `level_match` aggregate of `_objective` (optim.py, lines 83-90). -/
noncomputable def level_meanA (top : List Doc) : Option ℝ :=
  npMean (top.map fun d => if level_matchA d then (1 : ℝ) else 0)

/-- `AutoRanker._objective` (optim.py, lines 55-99) as a function of the
params it installs: rank, truncate to the top five, aggregate, and return
the negated fitness (scipy minimizes). -/
noncomputable def objectiveA (p : Params) (docs : List Doc)
    (user_ings : List String) (style_hint : String) : Option ℝ := do
  let top ← topA p docs user_ings style_hint
  let views ← views_meanA top
  let ing ← ing_meanA user_ings top
  let style ← style_meanA style_hint top
  let lvl ← level_meanA top
  return -(views + 2000 * ing + 1000 * style + 500 * lvl)

/-- `AutoRanker._objective` as a state transformer on the ranker object: its
first statement `self.params = params` installs the candidate weights, and
everything afterwards reads them from `self`. -/
noncomputable def objectiveRunA (_self : AutoRanker) (p : Params) (docs : List Doc)
    (user_ings : List String) (style_hint : String) : AutoRanker × Option ℝ :=
  let r2 : AutoRanker := { params := p }
  (r2, objectiveA r2.params docs user_ings style_hint)

/-- The fitness formula as claim C2 words it, with the ingredient component
a mean fraction (per-item hits divided by the number of query ingredient
terms).  Modelled from the spec for comparison against `objectiveA`; it is
not what the code computes. -/
noncomputable def fitness_rate_spec (p : Params) (docs : List Doc)
    (user_ings : List String) (style_hint : String) : Option ℝ := do
  let top ← topA p docs user_ings style_hint
  let views ← views_meanA top
  let ing ← npMean (top.map fun d =>
    (ing_countA user_ings d.page_content : ℝ) / user_ings.length)
  let style ← style_meanA style_hint top
  let lvl ← level_meanA top
  return views + 2000 * ing + 1000 * style + 500 * lvl

/-! ## Helper lemmas -/

/-- The empty character list occurs in every list (Python: `"" in s` is
always `True`). -/
theorem occursIn_nil (hay : List Char) : occursIn [] hay = true := by
  cases hay <;> simp [occursIn]

/-- A list whose head (if any) fails `p` is unchanged by `dropWhile p`. -/
theorem dropWhile_eq_self_of_head? {α : Type} {p : α → Bool} {l : List α}
    (h : ∀ a, l.head? = some a → p a = false) : l.dropWhile p = l := by
  cases l with
  | nil => rfl
  | cons a t => simp [List.dropWhile_cons, h a rfl]

/-- The first character of a trimmed list is not whitespace. -/
theorem trimChars_head_not (l : List Char) :
    ∀ a, (trimChars l).head? = some a → a.isWhitespace = false := by
  intro a ha
  unfold trimChars at ha
  rw [List.head?_reverse] at ha
  obtain ⟨pre, hpre⟩ :=
    List.dropWhile_suffix (l := (l.dropWhile Char.isWhitespace).reverse)
      Char.isWhitespace
  have hlast : (l.dropWhile Char.isWhitespace).reverse.getLast? = some a := by
    rw [← hpre, List.getLast?_append, ha]
    rfl
  rw [List.getLast?_eq_head?_reverse, List.reverse_reverse] at hlast
  have h2 := List.head?_dropWhile_not Char.isWhitespace l
  rw [hlast] at h2
  exact h2

/-- The last character of a trimmed list is not whitespace. -/
theorem trimChars_getLast_not (l : List Char) :
    ∀ a, (trimChars l).getLast? = some a → a.isWhitespace = false := by
  intro a ha
  unfold trimChars at ha
  rw [List.getLast?_eq_head?_reverse, List.reverse_reverse] at ha
  have h2 := List.head?_dropWhile_not Char.isWhitespace
    (l.dropWhile Char.isWhitespace).reverse
  rw [ha] at h2
  exact h2

/-- Trimming is idempotent. -/
theorem trimChars_idem (l : List Char) : trimChars (trimChars l) = trimChars l := by
  have h1 : (trimChars l).dropWhile Char.isWhitespace = trimChars l :=
    dropWhile_eq_self_of_head? (trimChars_head_not l)
  show (((trimChars l).dropWhile Char.isWhitespace).reverse.dropWhile
      Char.isWhitespace).reverse = trimChars l
  rw [h1]
  have h2 : (trimChars l).reverse.dropWhile Char.isWhitespace
      = (trimChars l).reverse := by
    apply dropWhile_eq_self_of_head?
    intro a ha
    rw [List.head?_reverse] at ha
    exact trimChars_getLast_not l a ha
  rw [h2, List.reverse_reverse]

/-- `String.strip` is idempotent. -/
theorem pyStrip_idem (s : String) : pyStrip (pyStrip s) = pyStrip s :=
  congrArg String.mk (trimChars_idem s.toList)

/-- A list of whitespace characters trims to the empty list. -/
theorem trimChars_eq_nil_of_all (l : List Char)
    (h : l.all Char.isWhitespace = true) : trimChars l = [] := by
  have h1 : l.dropWhile Char.isWhitespace = [] := by
    induction l with
    | nil => rfl
    | cons a t ih =>
      simp only [List.all_cons, Bool.and_eq_true] at h
      simp [List.dropWhile_cons, h.1, ih h.2]
  unfold trimChars
  rw [h1]
  rfl

/-- Every character of every piece of `splitDelimRuns cs` is a character of
`cs`. -/
theorem splitDelimRuns_mem (cs : List Char) :
    ∀ piece ∈ splitDelimRuns cs, ∀ c ∈ piece, c ∈ cs := by
  induction cs with
  | nil =>
    intro piece hp c hc
    simp only [splitDelimRuns, List.mem_singleton] at hp
    subst hp
    simp at hc
  | cons a rest ih =>
    intro piece hp c hc
    simp only [splitDelimRuns] at hp
    by_cases hd : isDelim a = true
    · rw [if_pos hd] at hp
      have hrec : piece ∈ splitDelimRuns rest ∨ piece = [] := by
        cases rest with
        | nil => rcases List.mem_cons.mp hp with h | h; exact Or.inr h; exact Or.inl h
        | cons d ds =>
          by_cases hdd : isDelim d = true
          · simp only [hdd, if_true] at hp
            exact Or.inl hp
          · simp [hdd] at hp
            rcases hp with h | h
            · exact Or.inr h
            · exact Or.inl h
      rcases hrec with h | h
      · exact List.mem_cons_of_mem a (ih piece h c hc)
      · subst h; simp at hc
    · rw [if_neg hd] at hp
      cases hr : splitDelimRuns rest with
      | nil =>
        rw [hr] at hp
        rcases List.mem_singleton.mp hp with h
        subst h
        rcases List.mem_singleton.mp hc with h2
        exact h2 ▸ List.mem_cons_self a rest
      | cons t ts =>
        rw [hr] at hp
        rcases List.mem_cons.mp hp with h | h
        · subst h
          rcases List.mem_cons.mp hc with h2 | h2
          · exact h2 ▸ List.mem_cons_self a rest
          · exact List.mem_cons_of_mem a
              (ih t (hr ▸ List.mem_cons_self t ts) c h2)
        · exact List.mem_cons_of_mem a
            (ih piece (hr ▸ List.mem_cons_of_mem t h) c hc)

/-- `insertDesc` splits its list at the insertion point: everything placed
in front of `a` has a strictly larger key. -/
theorem insertDesc_exists_split {α β : Type} [LinearOrder β] (f : α → β) (a : α)
    (l : List α) :
    ∃ l1 l2, l = l1 ++ l2 ∧ insertDesc f a l = l1 ++ a :: l2 ∧
      ∀ b ∈ l1, f a < f b := by
  induction l with
  | nil => exact ⟨[], [], rfl, rfl, by simp⟩
  | cons b bs ih =>
    by_cases h : f b ≤ f a
    · exact ⟨[], b :: bs, rfl, by simp [insertDesc, h], by simp⟩
    · obtain ⟨l1, l2, he, hi, hgt⟩ := ih
      refine ⟨b :: l1, l2, by simp [he], ?_, ?_⟩
      · simp only [insertDesc, if_neg h, hi, List.cons_append]
      · intro x hx
        rcases List.mem_cons.mp hx with h2 | h2
        · exact h2 ▸ not_le.mp h
        · exact hgt x h2

/-- Membership is invariant under `insertDesc`. -/
theorem mem_insertDesc {α β : Type} [LinearOrder β] (f : α → β) (a x : α)
    (l : List α) : x ∈ insertDesc f a l ↔ x ∈ a :: l := by
  induction l with
  | nil => simp [insertDesc]
  | cons b bs ih =>
    by_cases h : f b ≤ f a
    · simp [insertDesc, h]
    · simp only [insertDesc, if_neg h, List.mem_cons, ih]
      tauto

/-- Membership is invariant under `sortDesc`. -/
theorem mem_sortDesc {α β : Type} [LinearOrder β] (f : α → β) (x : α) :
    ∀ l : List α, x ∈ sortDesc f l ↔ x ∈ l := by
  intro l
  induction l with
  | nil => simp [sortDesc]
  | cons a bs ih =>
    rw [sortDesc, mem_insertDesc, List.mem_cons, List.mem_cons, ih]

/-- `insertDesc` grows the length by one. -/
theorem length_insertDesc {α β : Type} [LinearOrder β] (f : α → β) (a : α)
    (l : List α) : (insertDesc f a l).length = l.length + 1 := by
  induction l with
  | nil => rfl
  | cons b bs ih =>
    by_cases h : f b ≤ f a
    · simp [insertDesc, h]
    · simp [insertDesc, h, ih]

/-- `sortDesc` preserves the length. -/
theorem length_sortDesc {α β : Type} [LinearOrder β] (f : α → β) :
    ∀ l : List α, (sortDesc f l).length = l.length := by
  intro l
  induction l with
  | nil => rfl
  | cons a bs ih => rw [sortDesc, length_insertDesc, ih, List.length_cons]

/-- Stability of the descending sort, phrased on tie classes: the documents
carrying any fixed key are listed by `sortDesc` exactly in their input
order. -/
theorem filter_sortDesc {α β : Type} [LinearOrder β] [DecidableEq β]
    (f : α → β) (c : β) :
    ∀ l : List α,
      (sortDesc f l).filter (fun x => decide (f x = c))
        = l.filter (fun x => decide (f x = c)) := by
  intro l
  induction l with
  | nil => rfl
  | cons a bs ih =>
    obtain ⟨l1, l2, he, hi, hgt⟩ := insertDesc_exists_split f a (sortDesc f bs)
    have hsplit : (sortDesc f bs).filter (fun x => decide (f x = c))
        = l1.filter (fun x => decide (f x = c))
          ++ l2.filter (fun x => decide (f x = c)) := by
      rw [he, List.filter_append]
    rw [sortDesc, hi, List.filter_append, List.filter_cons]
    by_cases hc : f a = c
    · have h1 : l1.filter (fun x => decide (f x = c)) = [] := by
        rw [List.filter_eq_nil_iff]
        intro x hx
        simp only [decide_eq_true_eq]
        intro hfx
        exact absurd (hc.trans hfx.symm) (ne_of_lt (hgt x hx))
      rw [List.filter_cons, if_pos (by simp [hc]), if_pos (by simp [hc]), h1]
      have h2 := ih
      rw [hsplit, h1, List.nil_append] at h2
      rw [List.nil_append, h2]
    · rw [List.filter_cons, if_neg (by simp [hc]), if_neg (by simp [hc])]
      have h2 := ih
      rw [hsplit] at h2
      exact h2

/-- A `mapM` over `Option` succeeds when every element does, with the same
length. -/
theorem mapM_eq_some_of_isSome {α β : Type} (f : α → Option β) :
    ∀ l : List α, (∀ a ∈ l, (f a).isSome = true) →
      ∃ l2, l.mapM f = some l2 ∧ l2.length = l.length := by
  intro l
  induction l with
  | nil => exact fun _ => ⟨[], rfl, rfl⟩
  | cons a t ih =>
    intro h
    obtain ⟨b, hb⟩ := Option.isSome_iff_exists.mp (h a (List.mem_cons_self a t))
    obtain ⟨l2, hl2, hlen⟩ := ih fun x hx => h x (List.mem_cons_of_mem a hx)
    refine ⟨b :: l2, ?_, by simp [hlen]⟩
    rw [List.mapM_cons, hb, hl2]
    rfl

/-- Every output element of a successful `Option`-`mapM` comes from some
input element. -/
theorem mapM_mem_of_eq_some {α β : Type} (f : α → Option β) :
    ∀ (l : List α) (l2 : List β), l.mapM f = some l2 →
      ∀ b ∈ l2, ∃ a ∈ l, f a = some b := by
  intro l
  induction l with
  | nil =>
    intro l2 h b hb
    rw [List.mapM_nil] at h
    cases h
    simp at hb
  | cons a t ih =>
    intro l2 h b hb
    rw [List.mapM_cons] at h
    cases hfa : f a with
    | none => rw [hfa] at h; cases h
    | some x =>
      rw [hfa] at h
      cases hmt : t.mapM f with
      | none => rw [hmt] at h; cases h
      | some xs =>
        rw [hmt] at h
        have hx : x :: xs = l2 := by
          have := h
          simpa using this
        subst hx
        rcases List.mem_cons.mp hb with h2 | h2
        · exact ⟨a, List.mem_cons_self a t, h2 ▸ hfa⟩
        · obtain ⟨a2, ha2, hfa2⟩ := ih xs hmt b h2
          exact ⟨a2, List.mem_cons_of_mem a ha2, hfa2⟩

/-- A non-empty list has a mean. -/
theorem npMean_of_ne_nil (l : List ℝ) (h : l ≠ []) :
    npMean l = some (l.sum / l.length) := by
  unfold npMean
  rw [if_neg (by simpa using h)]

/-- The mean of a list is at most any upper bound of its elements. -/
theorem npMean_le (l : List ℝ) (m b : ℝ) (hm : npMean l = some m)
    (hb : ∀ x ∈ l, x ≤ b) : m ≤ b := by
  unfold npMean at hm
  by_cases hne : l = []
  · rw [if_pos (by simp [hne])] at hm
    cases hm
  · rw [if_neg (by simpa using hne)] at hm
    have hlen : (0 : ℝ) < l.length :=
      Nat.cast_pos.mpr (List.length_pos.mpr hne)
    have hsum : l.sum ≤ l.length • b := List.sum_le_card_nsmul l b hb
    rw [← Option.some.inj hm, div_le_iff₀ hlen]
    calc l.sum ≤ l.length • b := hsum
      _ = b * l.length := by rw [nsmul_eq_mul]; ring

/-- The mean of a list is at least any lower bound of its elements. -/
theorem le_npMean (l : List ℝ) (m a : ℝ) (hm : npMean l = some m)
    (ha : ∀ x ∈ l, a ≤ x) : a ≤ m := by
  unfold npMean at hm
  by_cases hne : l = []
  · rw [if_pos (by simp [hne])] at hm
    cases hm
  · rw [if_neg (by simpa using hne)] at hm
    have hlen : (0 : ℝ) < l.length :=
      Nat.cast_pos.mpr (List.length_pos.mpr hne)
    have hsum : l.length • a ≤ l.sum := List.card_nsmul_le_sum l a ha
    rw [← Option.some.inj hm, le_div_iff₀ hlen]
    calc a * l.length = l.length • a := by rw [nsmul_eq_mul]; ring
      _ ≤ l.sum := hsum

/-- `AutoRanker.score` succeeds exactly when the `int(views)` conversion
does. -/
theorem scoreA_isSome_iff (p : Params) (doc : Doc) (ings : List String)
    (hint : String) :
    (scoreA p doc ings hint).isSome
      = (pyInt (doc.metadata.views.getD (.intV 0))).isSome := by
  unfold scoreA
  cases h : pyInt (doc.metadata.views.getD (.intV 0)) <;> simp [h]

/-- `score_doc` succeeds exactly when the `int(views or 0)` conversion
does. -/
theorem score_doc_isSome_iff (doc : Doc) (ings : List String) (hint : String) :
    (score_doc doc ings hint).isSome = (pyIntOr0 doc.metadata.views).isSome := by
  unfold score_doc
  cases h : pyIntOr0 doc.metadata.views <;> simp [h]

/-! ## Claims -/

/-- C10: `parse_ingredients` returns only non-empty, whitespace-trimmed
strings; it returns the empty list on empty or whitespace-only input and on
each of the sentinels 없음, none, None. -/
theorem C10_parse_ingredients_clean :
    (∀ text : String,
        (∀ s ∈ parse_ingredients text, s ≠ "" ∧ pyStrip s = s) ∧
        (text.toList.all Char.isWhitespace = true → parse_ingredients text = [])) ∧
      parse_ingredients "없음" = [] ∧ parse_ingredients "none" = [] ∧
      parse_ingredients "None" = [] := by
  refine ⟨fun text => ⟨?_, ?_⟩, by decide, by decide, by decide⟩
  · intro s hs
    unfold parse_ingredients at hs
    split at hs
    · simp at hs
    · rw [List.mem_filterMap] at hs
      obtain ⟨piece, _, hpiece⟩ := hs
      by_cases hz : pyStrip (String.mk piece) = ""
      · simp [hz] at hpiece
      · simp only [if_neg hz] at hpiece
        have heq := Option.some.inj hpiece
        subst heq
        exact ⟨hz, pyStrip_idem _⟩
  · intro hws
    unfold parse_ingredients
    split
    · rfl
    · apply List.filterMap_eq_nil_iff.mpr
      intro piece hp
      have hall : piece.all Char.isWhitespace = true := by
        rw [List.all_eq_true]
        intro c hc
        exact (List.all_eq_true.mp hws) c (splitDelimRuns_mem text.toList piece hp c hc)
      have : pyStrip (String.mk piece) = "" :=
        congrArg String.mk (trimChars_eq_nil_of_all piece hall)
      simp [this]

/-- C10 witness: a whitespace-only input yields `[]`, and the element "tofu"
of `parse_ingredients " tofu ,"` is non-empty and trimmed. -/
theorem C10_parse_ingredients_clean_witness :
    parse_ingredients "  " = [] ∧ ("tofu" ≠ "" ∧ pyStrip "tofu" = "tofu") :=
  ⟨(C10_parse_ingredients_clean.1 "  ").2 (by decide),
    (C10_parse_ingredients_clean.1 " tofu ,").1 "tofu" (by decide)⟩

/-- C9: in `AutoRanker.score`, an ingredient entry whose stripped form is
empty is counted as a hit against every document's content, raising
`ing_hit` by one uniformly. -/
theorem C9_empty_ingredient_always_hits :
    ∀ ing : String, pyStrip ing = "" →
      ∀ (doc : Doc) (user_ings : List String),
        ing_hitA (ing :: user_ings) doc.page_content
          = ing_hitA user_ings doc.page_content + 1 := by
  intro ing h doc user_ings
  unfold ing_hitA
  rw [List.countP_cons]
  have hsub : substr (pyStrip ing) doc.page_content = true := by
    rw [h]
    exact occursIn_nil _
  simp [hsub]

/-- C9 witness: the whitespace entry " " (as produced by splitting a
trailing comma) strips to empty and hits the content "rice". -/
theorem C9_empty_ingredient_always_hits_witness :
    pyStrip " " = "" ∧
      ing_hitA [" "] (Doc.mk "rice" (Metadata.mk none none none none none)).page_content
        = ing_hitA [] (Doc.mk "rice" (Metadata.mk none none none none none)).page_content
          + 1 :=
  ⟨by decide, C9_empty_ingredient_always_hits " " (by decide) _ []⟩

/-- C3 counterexample: under the optimizer's `_parse_time`, the time strings
"60분" and "130분" parse (by numeric extraction) to 60 and 130 minutes, yet
the 60-minute string is penalised 1 and the 130-minute string 0 — the
penalty is not a non-decreasing function of parsed minutes, because
`_parse_time` is a substring test and "130분" contains "30". -/
theorem C3_time_penalty_counterexample :
    time_to_minutes "60분" = 60 ∧ time_to_minutes "130분" = 130 ∧
      parse_timeA "60분" = 1 ∧ parse_timeA "130분" = 0 ∧
      ¬(parse_timeA "60분" ≤ parse_timeA "130분") := by
  have h30 : substr "30" "60분" = false := by decide
  have h60 : substr "60" "60분" = true := by decide
  have h30b : substr "30" "130분" = true := by decide
  refine ⟨by decide, by decide, ?_, ?_, ?_⟩
  · simp [parse_timeA, h30, h60]
  · simp [parse_timeA, h30b]
  · simp [parse_timeA, h30, h60, h30b]

/-- C3 amended: the inference-time penalty of `score_doc` is a
non-decreasing step function of `time_to_minutes` (at most 30 minutes → 0,
at most 60 → 0.5, beyond → 1.5), and the explicit no-info marker maps to
the sentinel 9999, which receives the largest penalty; the optimizer's
`_parse_time` is instead a substring test ("30" → 0, "60" → 1, else 2) and
is not monotone in parsed minutes. -/
theorem C3_time_penalty_amended :
    (∀ m1 m2 : Nat, m1 ≤ m2 → time_penalty_doc m1 ≤ time_penalty_doc m2) ∧
      (∀ s1 s2 : String, time_to_minutes s1 ≤ time_to_minutes s2 →
        time_penalty_doc (time_to_minutes s1)
          ≤ time_penalty_doc (time_to_minutes s2)) ∧
      time_to_minutes "정보 없음" = 9999 ∧
      time_penalty_doc 9999 = 3 / 2 ∧
      (∀ m : Nat, time_penalty_doc m ≤ 3 / 2) ∧
      (∀ m : Nat, (m ≤ 30 → time_penalty_doc m = 0) ∧
        (30 < m → m ≤ 60 → time_penalty_doc m = 1 / 2) ∧
        (60 < m → time_penalty_doc m = 3 / 2)) := by
  have hmono : ∀ m1 m2 : Nat, m1 ≤ m2 → time_penalty_doc m1 ≤ time_penalty_doc m2 := by
    intro m1 m2 h
    unfold time_penalty_doc
    split_ifs <;> norm_num <;> omega
  refine ⟨hmono, fun s1 s2 h => hmono _ _ h, by decide, by norm_num [time_penalty_doc],
    ?_, ?_⟩
  · intro m
    unfold time_penalty_doc
    split_ifs <;> norm_num
  · intro m
    refine ⟨fun h => ?_, fun h1 h2 => ?_, fun h => ?_⟩ <;>
      · unfold time_penalty_doc
        split_ifs <;> first | rfl | omega

/-- C3 witness: a 10-minute string against a 90-minute string. -/
theorem C3_time_penalty_amended_witness :
    time_penalty_doc (time_to_minutes "10분이내")
      ≤ time_penalty_doc (time_to_minutes "90분이내") :=
  C3_time_penalty_amended.2.1 "10분이내" "90분이내" (by decide)

/-- C4 counterexample: the optimizer's style bonus has no no-preference
check, so the sentinel hint 상관없음 occurring in a document's content earns
the bonus 1 there, while the inference-time scorer maps the same input to 0. -/
theorem C4_style_sentinel_counterexample :
    style_scoreA "상관없음" "오늘은 상관없음 이라고 했다" "" "" = 1 ∧
      style_score_doc "상관없음" "오늘은 상관없음 이라고 했다" "" "" = 0 := by
  have h : substr "상관없음" "오늘은 상관없음 이라고 했다" = true := by decide
  constructor
  · simp [style_scoreA, h]
  · simp [style_score_doc]

/-- C4 amended: the inference-time `style_score` is 0 for an empty hint and
for the sentinel 상관없음, and otherwise 1.5 exactly on a substring match
against content, situation or method; the optimizer's `style_score` checks
only for the empty hint (no sentinel check) and is otherwise 1 exactly on a
substring match against content, method or situation. -/
theorem C4_style_score_amended :
    (∀ text situation method : String,
        style_score_doc "" text situation method = 0 ∧
        style_score_doc "상관없음" text situation method = 0) ∧
      (∀ hint text situation method : String, hint ≠ "" → hint ≠ "상관없음" →
        style_score_doc hint text situation method
          = if (substr hint text || substr hint situation || substr hint method)
            then 3 / 2 else 0) ∧
      (∀ text method situation : String, style_scoreA "" text method situation = 0) ∧
      (∀ hint text method situation : String, hint ≠ "" →
        style_scoreA hint text method situation
          = if (substr hint text || substr hint method || substr hint situation)
            then 1 else 0) := by
  refine ⟨fun t s m => ⟨by simp [style_score_doc], by simp [style_score_doc]⟩,
    fun hint t s m h1 h2 => ?_, fun t m s => by simp [style_scoreA],
    fun hint t m s h1 => ?_⟩
  · unfold style_score_doc
    by_cases hb : (substr hint t || substr hint s || substr hint m) = true
    · rw [if_pos ⟨h1, h2, hb⟩, if_pos hb]
    · rw [if_neg fun hcon => hb hcon.2.2, if_neg hb]
  · unfold style_scoreA
    by_cases hb : (substr hint t || substr hint m || substr hint s) = true
    · rw [if_pos ⟨h1, hb⟩, if_pos hb]
    · rw [if_neg fun hcon => hb hcon.2, if_neg hb]

/-- C4 witness: the non-sentinel hint 간식 matching the content. -/
theorem C4_style_score_amended_witness :
    style_score_doc "간식" "맛있는 간식" "" ""
      = if (substr "간식" "맛있는 간식" || substr "간식" "" || substr "간식" "")
        then 3 / 2 else 0 :=
  C4_style_score_amended.2.1 "간식" "맛있는 간식" "" "" (by decide) (by decide)

/-- C5 counterexample: evaluating `_objective` does not leave the ranker's
state unchanged — starting from the initial weights and evaluating at the
zero vector leaves the zero vector installed as `self.params`. -/
theorem C5_objective_mutates_counterexample :
    (objectiveRunA (AutoRanker.mk initParams) (Params.mk 0 0 0 0 0) [] [] "").1
      ≠ AutoRanker.mk initParams := by
  intro h
  have h2 := congrArg (fun r => r.params.w_ing) h
  simp only [objectiveRunA, initParams] at h2
  norm_num at h2

/-- C5 amended: `_objective` installs its `params` argument as the ranker's
weight vector (so the state after evaluation equals the candidate weights,
not the prior weights), and the returned fitness is a deterministic
function of the arguments alone — it does not depend on the prior state,
so repeated calls with identical inputs give identical results. -/
theorem C5_objective_state_amended :
    ∀ (r r2 : AutoRanker) (p : Params) (docs : List Doc) (ings : List String)
      (hint : String),
      (objectiveRunA r p docs ings hint).1 = AutoRanker.mk p ∧
      (objectiveRunA r p docs ings hint).2 = (objectiveRunA r2 p docs ings hint).2 ∧
      (objectiveRunA r p docs ings hint).2 = objectiveA p docs ings hint :=
  fun _ _ _ _ _ _ => ⟨rfl, rfl, rfl⟩

/-- C7 counterexample: on an empty candidate set the objective does not
produce a minimal sentinel fitness: `np.mean` of the empty top-K list is
NaN (modelled `none`), which poisons the whole fitness expression, so no
real fitness value comes out at all. -/
theorem C7_empty_fitness_counterexample :
    objectiveA initParams [] [] "" = none := rfl

/-- C7 amended: on an empty candidate set, `_objective` completes without
raising (the sort, slice and comprehensions all tolerate the empty list),
but the fitness is NaN — `np.mean([])` — rather than a minimal sentinel
value, for every weight vector and query context. -/
theorem C7_empty_fitness_amended :
    ∀ (p : Params) (ings : List String) (hint : String),
      objectiveA p [] ings hint = none :=
  fun _ _ _ => rfl

/-- C1 counterexample: a document whose `views` metadata is the non-numeric
string "많음" makes both scorers raise `ValueError` from `int(...)`
(modelled `none`) instead of resolving the field to a neutral default. -/
theorem C1_totality_counterexample :
    scoreA initParams
        (Doc.mk "두부 요리" (Metadata.mk none (some (.strV "많음")) none none none)) [] ""
      = none ∧
    score_doc
        (Doc.mk "두부 요리" (Metadata.mk none (some (.strV "많음")) none none none)) [] ""
      = none :=
  ⟨rfl, rfl⟩

/-- C1 amended: both scorers are total except on a malformed `views` value:
`AutoRanker.score` succeeds exactly when `int(views)` does, and `score_doc`
exactly when `int(views or 0)` does; in particular every document with an
absent `views` field (and any `level`/`time`/`method`/`situation` fields,
present, absent or arbitrary strings) is scored without error, the missing
fields resolving to defaults. -/
theorem C1_totality_amended :
    ∀ (p : Params) (doc : Doc) (ings : List String) (hint : String),
      ((scoreA p doc ings hint).isSome
          ↔ (pyInt (doc.metadata.views.getD (.intV 0))).isSome) ∧
      ((score_doc doc ings hint).isSome ↔ (pyIntOr0 doc.metadata.views).isSome) ∧
      (doc.metadata.views = none →
        (scoreA p doc ings hint).isSome ∧ (score_doc doc ings hint).isSome) := by
  intro p doc ings hint
  have ha : (scoreA p doc ings hint).isSome
      ↔ (pyInt (doc.metadata.views.getD (.intV 0))).isSome := by
    unfold scoreA
    cases h : pyInt (doc.metadata.views.getD (.intV 0)) <;> simp [h]
  have hb : (score_doc doc ings hint).isSome ↔ (pyIntOr0 doc.metadata.views).isSome := by
    unfold score_doc
    cases h : pyIntOr0 doc.metadata.views <;> simp [h]
  refine ⟨ha, hb, fun hnone => ⟨ha.mpr ?_, hb.mpr ?_⟩⟩
  · rw [hnone]
    simp [pyInt]
  · rw [hnone]
    simp [pyIntOr0, pyTruthy]

/-- C1 witness: a document with no metadata at all is scored by both
scorers. -/
theorem C1_totality_amended_witness :
    (scoreA initParams (Doc.mk "rice" (Metadata.mk none none none none none)) [] "").isSome
      ∧ (score_doc (Doc.mk "rice" (Metadata.mk none none none none none)) [] "").isSome :=
  (C1_totality_amended initParams
    (Doc.mk "rice" (Metadata.mk none none none none none)) [] "").2.2 rfl

/-- C6: in the optimizer's ranking, the beginner/popular/fast document A
containing the queried ingredient "tofu" is placed strictly above the
advanced/unpopular/slow document B lacking it, for every weight vector with
all components non-negative and a strictly positive ingredient weight,
whichever input order the two documents arrive in. -/
theorem C6_scenario_tofu_ranking (p : Params)
    (h1 : 0 ≤ p.w_ing) (h2 : 0 ≤ p.w_level) (h3 : 0 ≤ p.w_pop)
    (h4 : 0 ≤ p.w_style) (h5 : 0 ≤ p.p_time) (h6 : 0 < p.w_ing) :
    rankedA p
        [Doc.mk "Easy tofu soup"
          (Metadata.mk (some "초급") (some (.intV 10000)) (some "30분이내") none none),
         Doc.mk "Hearty beef stew"
          (Metadata.mk (some "고급") (some (.intV 500)) (some "120분이내") none none)]
        ["tofu"] ""
      = some
        [Doc.mk "Easy tofu soup"
          (Metadata.mk (some "초급") (some (.intV 10000)) (some "30분이내") none none),
         Doc.mk "Hearty beef stew"
          (Metadata.mk (some "고급") (some (.intV 500)) (some "120분이내") none none)] ∧
    rankedA p
        [Doc.mk "Hearty beef stew"
          (Metadata.mk (some "고급") (some (.intV 500)) (some "120분이내") none none),
         Doc.mk "Easy tofu soup"
          (Metadata.mk (some "초급") (some (.intV 10000)) (some "30분이내") none none)]
        ["tofu"] ""
      = some
        [Doc.mk "Easy tofu soup"
          (Metadata.mk (some "초급") (some (.intV 10000)) (some "30분이내") none none),
         Doc.mk "Hearty beef stew"
          (Metadata.mk (some "고급") (some (.intV 500)) (some "120분이내") none none)] := by
  set A : Doc := Doc.mk "Easy tofu soup"
    (Metadata.mk (some "초급") (some (.intV 10000)) (some "30분이내") none none) with hA
  set B : Doc := Doc.mk "Hearty beef stew"
    (Metadata.mk (some "고급") (some (.intV 500)) (some "120분이내") none none) with hB
  have hsA : scoreA p A ["tofu"] ""
      = some (p.w_ing * ((1 : ℕ) : ℝ) + p.w_level * level_scoreA "초급"
        + p.w_pop * Real.log (1 + ((10000 : ℤ) : ℝ))
        + p.w_style * style_scoreA "" "Easy tofu soup" "" ""
        - p.p_time * parse_timeA "30분이내") := rfl
  have hsB : scoreA p B ["tofu"] ""
      = some (p.w_ing * ((0 : ℕ) : ℝ) + p.w_level * level_scoreA "고급"
        + p.w_pop * Real.log (1 + ((500 : ℤ) : ℝ))
        + p.w_style * style_scoreA "" "Hearty beef stew" "" ""
        - p.p_time * parse_timeA "120분이내") := rfl
  have e1 : level_scoreA "초급" = 1 := by
    unfold level_scoreA
    rw [if_pos (by decide)]
  have e2 : level_scoreA "고급" = 0 := by
    unfold level_scoreA
    rw [if_neg (by decide), if_neg (by decide)]
  have e3 : ∀ t m s : String, style_scoreA "" t m s = 0 := by
    intro t m s
    unfold style_scoreA
    rw [if_neg]
    intro hcon
    exact hcon.1 rfl
  have e4 : parse_timeA "30분이내" = 0 := by
    unfold parse_timeA
    rw [if_pos (by decide)]
  have e5 : parse_timeA "120분이내" = 2 := by
    unfold parse_timeA
    rw [if_neg (by decide), if_neg (by decide)]
  have hlog : Real.log (1 + ((500 : ℤ) : ℝ)) ≤ Real.log (1 + ((10000 : ℤ) : ℝ)) := by
    refine (Real.log_le_log_iff (by norm_num) (by norm_num)).mpr (by norm_num)
  have hlt : p.w_ing * ((0 : ℕ) : ℝ) + p.w_level * level_scoreA "고급"
        + p.w_pop * Real.log (1 + ((500 : ℤ) : ℝ))
        + p.w_style * style_scoreA "" "Hearty beef stew" "" ""
        - p.p_time * parse_timeA "120분이내"
      < p.w_ing * ((1 : ℕ) : ℝ) + p.w_level * level_scoreA "초급"
        + p.w_pop * Real.log (1 + ((10000 : ℤ) : ℝ))
        + p.w_style * style_scoreA "" "Easy tofu soup" "" ""
        - p.p_time * parse_timeA "30분이내" := by
    rw [e1, e2, e4, e5, e3, e3]
    have k : 0 ≤ p.w_pop * (Real.log (1 + ((10000 : ℤ) : ℝ))
        - Real.log (1 + ((500 : ℤ) : ℝ))) :=
      mul_nonneg h3 (sub_nonneg.mpr hlog)
    push_cast
    push_cast at k
    nlinarith [k, h1, h4]
  constructor
  · show rankedA p [A, B] ["tofu"] "" = some [A, B]
    unfold rankedA
    rw [List.mapM_cons, List.mapM_cons, List.mapM_nil, hsA, hsB]
    simp only [Option.map_some', Option.bind_eq_bind, Option.some_bind, Option.pure_def]
    simp only [sortDesc, insertDesc]
    rw [if_pos (by simpa using hlt.le)]
    simp
  · show rankedA p [B, A] ["tofu"] "" = some [A, B]
    unfold rankedA
    rw [List.mapM_cons, List.mapM_cons, List.mapM_nil, hsB, hsA]
    simp only [Option.map_some', Option.bind_eq_bind, Option.some_bind, Option.pure_def]
    simp only [sortDesc, insertDesc]
    rw [if_neg (by simpa using not_le.mpr hlt)]
    simp [insertDesc]

/-- C6 witness: the pure-ingredient weight vector `(1, 0, 0, 0, 0)`. -/
theorem C6_scenario_tofu_ranking_witness :
    rankedA (Params.mk 1 0 0 0 0)
        [Doc.mk "Easy tofu soup"
          (Metadata.mk (some "초급") (some (.intV 10000)) (some "30분이내") none none),
         Doc.mk "Hearty beef stew"
          (Metadata.mk (some "고급") (some (.intV 500)) (some "120분이내") none none)]
        ["tofu"] ""
      = some
        [Doc.mk "Easy tofu soup"
          (Metadata.mk (some "초급") (some (.intV 10000)) (some "30분이내") none none),
         Doc.mk "Hearty beef stew"
          (Metadata.mk (some "고급") (some (.intV 500)) (some "120분이내") none none)] :=
  (C6_scenario_tofu_ranking (Params.mk 1 0 0 0 0) zero_le_one (le_refl 0) (le_refl 0)
    (le_refl 0) (le_refl 0) zero_lt_one).1

/-- C8: both rankings are stable descending sorts.  The decorate stage
(`mapM`) lists the scored candidates in input order; for every weight
vector, candidate list and score value, the sorted output lists the
documents carrying that score exactly in their input order — so score-tied
documents never reorder, whatever the input permutation. -/
theorem C8_ranking_stable :
    (∀ (p : Params) (docs : List Doc) (ings : List String) (hint : String)
        (scored : List (Doc × ℝ)),
        (docs.mapM fun d => (scoreA p d ings hint).map fun s => (d, s)) = some scored →
        rankedA p docs ings hint = some ((sortDesc Prod.snd scored).map Prod.fst) ∧
        ∀ c : ℝ,
          (sortDesc Prod.snd scored).filter (fun x => decide (x.2 = c))
            = scored.filter (fun x => decide (x.2 = c))) ∧
    (∀ (docs : List Doc) (ings : List String) (hint : String)
        (scored : List (ℚ × Doc)),
        (docs.mapM fun d => (score_doc d ings hint).map fun s => (s, d)) = some scored →
        suggest_sorted docs ings hint = some (sortDesc Prod.fst scored) ∧
        ∀ c : ℚ,
          (sortDesc Prod.fst scored).filter (fun x => decide (x.1 = c))
            = scored.filter (fun x => decide (x.1 = c))) := by
  constructor
  · intro p docs ings hint scored hm
    exact ⟨by rw [rankedA, hm]; rfl, fun c => filter_sortDesc Prod.snd c scored⟩
  · intro docs ings hint scored hm
    exact ⟨by rw [suggest_sorted, hm]; rfl, fun c => filter_sortDesc Prod.fst c scored⟩

/-- C8 witness: two metadata-free documents tie at score −3/2 under
`score_doc` with no ingredients and no hint, and keep their input order. -/
theorem C8_ranking_stable_witness :
    suggest_rank
        [Doc.mk "a" (Metadata.mk none none none none none),
         Doc.mk "b" (Metadata.mk none none none none none)] [] ""
      = some [Doc.mk "a" (Metadata.mk none none none none none),
              Doc.mk "b" (Metadata.mk none none none none none)] ∧
    (sortDesc Prod.fst
        [(-(3 / 2 : ℚ), Doc.mk "a" (Metadata.mk none none none none none)),
         (-(3 / 2 : ℚ), Doc.mk "b" (Metadata.mk none none none none none))]).filter
        (fun x => decide (x.1 = -(3 / 2 : ℚ)))
      = [(-(3 / 2 : ℚ), Doc.mk "a" (Metadata.mk none none none none none)),
         (-(3 / 2 : ℚ), Doc.mk "b" (Metadata.mk none none none none none))].filter
        (fun x => decide (x.1 = -(3 / 2 : ℚ))) := by
  have e1 : level_score_doc "" = 0 := by
    unfold level_score_doc
    rw [if_neg (by decide), if_neg (by decide)]
  have e2 : pop_score_doc 0 = 0 := by
    unfold pop_score_doc
    norm_num
  have e3 : ∀ t s m : String, style_score_doc "" t s m = 0 := by
    intro t s m
    unfold style_score_doc
    rw [if_neg]
    intro hcon
    exact hcon.1 rfl
  have e4 : time_penalty_doc 9999 = 3 / 2 := by
    unfold time_penalty_doc
    rw [if_neg (by decide), if_neg (by decide)]
  have hs : ∀ t : String,
      score_doc (Doc.mk t (Metadata.mk none none none none none)) [] ""
        = some (((0 : ℕ) : ℚ) * 3 + level_score_doc "" * (3 / 2) + pop_score_doc 0 * 1
            + style_score_doc "" t "" "" - time_penalty_doc 9999) := fun t => rfl
  have hsa : score_doc (Doc.mk "a" (Metadata.mk none none none none none)) [] ""
      = some (-(3 / 2 : ℚ)) := by
    rw [hs "a", e1, e2, e3, e4]
    norm_num
  have hsb : score_doc (Doc.mk "b" (Metadata.mk none none none none none)) [] ""
      = some (-(3 / 2 : ℚ)) := by
    rw [hs "b", e1, e2, e3, e4]
    norm_num
  have h := C8_ranking_stable.2
    [Doc.mk "a" (Metadata.mk none none none none none),
     Doc.mk "b" (Metadata.mk none none none none none)] [] ""
    [(-(3 / 2 : ℚ), Doc.mk "a" (Metadata.mk none none none none none)),
     (-(3 / 2 : ℚ), Doc.mk "b" (Metadata.mk none none none none none))]
    (by rw [List.mapM_cons, List.mapM_cons, List.mapM_nil, hsa, hsb]; rfl)
  refine ⟨?_, h.2 (-(3 / 2 : ℚ))⟩
  rw [suggest_rank, h.1]
  simp [sortDesc, insertDesc]

/-- C2 amended: for a non-empty candidate set whose `views` values all
convert, the negated fitness decomposes as
`mean_views + 2000·ing + 1000·style_rate + 500·level_rate`, where the style
and level components are rates in `[0, 1]` but the ingredient component is
the mean ingredient hit COUNT per item — non-negative and bounded by the
number of query ingredient terms, not by 1. -/
theorem C2_fitness_decomposition_amended :
    ∀ (p : Params) (docs : List Doc) (ings : List String) (hint : String),
      docs ≠ [] →
      (∀ d ∈ docs, (pyInt (d.metadata.views.getD (.intV 0))).isSome = true) →
      ∃ (top : List Doc) (views ing style lvl : ℝ),
        topA p docs ings hint = some top ∧ top ≠ [] ∧
        views_meanA top = some views ∧ ing_meanA ings top = some ing ∧
        style_meanA hint top = some style ∧ level_meanA top = some lvl ∧
        objectiveA p docs ings hint
          = some (-(views + 2000 * ing + 1000 * style + 500 * lvl)) ∧
        0 ≤ ing ∧ ing ≤ (ings.length : ℝ) ∧
        0 ≤ style ∧ style ≤ 1 ∧ 0 ≤ lvl ∧ lvl ≤ 1 := by
  intro p docs ings hint hne hv
  obtain ⟨scored, hm, hlen⟩ := mapM_eq_some_of_isSome
    (fun d => (scoreA p d ings hint).map fun s => (d, s)) docs
    (fun d hd => by rw [Option.isSome_map', scoreA_isSome_iff]; exact hv d hd)
  have hranked : rankedA p docs ings hint
      = some ((sortDesc Prod.snd scored).map Prod.fst) := by
    rw [rankedA, hm]
    rfl
  have htopA : topA p docs ings hint
      = some (((sortDesc Prod.snd scored).map Prod.fst).take 5) := by
    rw [topA, hranked]
    rfl
  set top : List Doc := ((sortDesc Prod.snd scored).map Prod.fst).take 5 with htopdef
  have htoplen : top ≠ [] := by
    refine List.length_pos.mp ?_
    rw [htopdef, List.length_take, List.length_map, length_sortDesc, hlen]
    have h0 := List.length_pos.mpr hne
    omega
  have hmem : ∀ d ∈ top, d ∈ docs := by
    intro d hd
    have hd2 : d ∈ (sortDesc Prod.snd scored).map Prod.fst := List.mem_of_mem_take hd
    obtain ⟨x, hx, hxd⟩ := List.mem_map.mp hd2
    have hx2 : x ∈ scored := (mem_sortDesc Prod.snd x _).mp hx
    obtain ⟨a, ha, hfa⟩ := mapM_mem_of_eq_some _ docs scored hm x hx2
    cases hs : scoreA p a ings hint with
    | none => rw [hs] at hfa; cases hfa
    | some s =>
      rw [hs] at hfa
      have hax : (a, s) = x := by simpa using hfa
      rw [← hxd, ← hax]
      exact ha
  obtain ⟨vs, hvs, hvslen⟩ := mapM_eq_some_of_isSome
    (fun d => pyInt (d.metadata.views.getD (.intV 0))) top
    (fun d hd => hv d (hmem d hd))
  have hvs_ne : (vs.map fun n : ℤ => (n : ℝ)) ≠ [] := by
    intro hcon
    apply htoplen
    have hlen0 := congrArg List.length hcon
    rw [List.length_map, hvslen] at hlen0
    exact List.length_eq_zero.mp hlen0
  have hviews : views_meanA top
      = some ((vs.map fun n : ℤ => (n : ℝ)).sum
          / ((vs.map fun n : ℤ => (n : ℝ)).length : ℕ)) := by
    rw [views_meanA, hvs]
    show npMean _ = _
    exact npMean_of_ne_nil _ hvs_ne
  have hmapne : ∀ g : Doc → ℝ, top.map g ≠ [] := by
    intro g hcon
    exact htoplen (List.map_eq_nil_iff.mp hcon)
  have hing : ing_meanA ings top
      = some ((top.map fun d => ((ing_countA ings d.page_content : ℕ) : ℝ)).sum
          / ((top.map fun d => ((ing_countA ings d.page_content : ℕ) : ℝ)).length : ℕ)) := by
    rw [ing_meanA]
    exact npMean_of_ne_nil _ (hmapne _)
  have hstyle : style_meanA hint top
      = some ((top.map fun d => if style_matchA hint d then (1 : ℝ) else 0).sum
          / ((top.map fun d => if style_matchA hint d then (1 : ℝ) else 0).length : ℕ)) := by
    rw [style_meanA]
    exact npMean_of_ne_nil _ (hmapne _)
  have hlvl : level_meanA top
      = some ((top.map fun d => if level_matchA d then (1 : ℝ) else 0).sum
          / ((top.map fun d => if level_matchA d then (1 : ℝ) else 0).length : ℕ)) := by
    rw [level_meanA]
    exact npMean_of_ne_nil _ (hmapne _)
  have hobj : objectiveA p docs ings hint
      = some (-(((vs.map fun n : ℤ => (n : ℝ)).sum
            / ((vs.map fun n : ℤ => (n : ℝ)).length : ℕ))
          + 2000 * ((top.map fun d => ((ing_countA ings d.page_content : ℕ) : ℝ)).sum
            / ((top.map fun d => ((ing_countA ings d.page_content : ℕ) : ℝ)).length : ℕ))
          + 1000 * ((top.map fun d => if style_matchA hint d then (1 : ℝ) else 0).sum
            / ((top.map fun d => if style_matchA hint d then (1 : ℝ) else 0).length : ℕ))
          + 500 * ((top.map fun d => if level_matchA d then (1 : ℝ) else 0).sum
            / ((top.map fun d => if level_matchA d then (1 : ℝ) else 0).length : ℕ)))) := by
    rw [objectiveA, htopA]
    simp only [Option.bind_eq_bind, Option.some_bind]
    rw [hviews]
    simp only [Option.some_bind]
    rw [hing]
    simp only [Option.some_bind]
    rw [hstyle]
    simp only [Option.some_bind]
    rw [hlvl]
    simp only [Option.some_bind]
    rfl
  have hing_lb : (0 : ℝ)
      ≤ (top.map fun d => ((ing_countA ings d.page_content : ℕ) : ℝ)).sum
        / ((top.map fun d => ((ing_countA ings d.page_content : ℕ) : ℝ)).length : ℕ) := by
    refine le_npMean _ _ 0 (npMean_of_ne_nil _ (hmapne _)) ?_
    intro x hx
    obtain ⟨d, _, hdx⟩ := List.mem_map.mp hx
    rw [← hdx]
    exact Nat.cast_nonneg _
  have hing_ub : (top.map fun d => ((ing_countA ings d.page_content : ℕ) : ℝ)).sum
        / ((top.map fun d => ((ing_countA ings d.page_content : ℕ) : ℝ)).length : ℕ)
      ≤ (ings.length : ℝ) := by
    refine npMean_le _ _ _ (npMean_of_ne_nil _ (hmapne _)) ?_
    intro x hx
    obtain ⟨d, _, hdx⟩ := List.mem_map.mp hx
    rw [← hdx]
    exact_mod_cast List.countP_le_length _
  have hstyle_lb : (0 : ℝ)
      ≤ (top.map fun d => if style_matchA hint d then (1 : ℝ) else 0).sum
        / ((top.map fun d => if style_matchA hint d then (1 : ℝ) else 0).length : ℕ) := by
    refine le_npMean _ _ 0 (npMean_of_ne_nil _ (hmapne _)) ?_
    intro x hx
    obtain ⟨d, _, hdx⟩ := List.mem_map.mp hx
    rw [← hdx]
    split <;> norm_num
  have hstyle_ub : (top.map fun d => if style_matchA hint d then (1 : ℝ) else 0).sum
        / ((top.map fun d => if style_matchA hint d then (1 : ℝ) else 0).length : ℕ)
      ≤ 1 := by
    refine npMean_le _ _ _ (npMean_of_ne_nil _ (hmapne _)) ?_
    intro x hx
    obtain ⟨d, _, hdx⟩ := List.mem_map.mp hx
    rw [← hdx]
    split <;> norm_num
  have hlvl_lb : (0 : ℝ)
      ≤ (top.map fun d => if level_matchA d then (1 : ℝ) else 0).sum
        / ((top.map fun d => if level_matchA d then (1 : ℝ) else 0).length : ℕ) := by
    refine le_npMean _ _ 0 (npMean_of_ne_nil _ (hmapne _)) ?_
    intro x hx
    obtain ⟨d, _, hdx⟩ := List.mem_map.mp hx
    rw [← hdx]
    split <;> norm_num
  have hlvl_ub : (top.map fun d => if level_matchA d then (1 : ℝ) else 0).sum
        / ((top.map fun d => if level_matchA d then (1 : ℝ) else 0).length : ℕ)
      ≤ 1 := by
    refine npMean_le _ _ _ (npMean_of_ne_nil _ (hmapne _)) ?_
    intro x hx
    obtain ⟨d, _, hdx⟩ := List.mem_map.mp hx
    rw [← hdx]
    split <;> norm_num
  exact ⟨top, _, _, _, _, htopA, htoplen, hviews, hing, hstyle, hlvl, hobj,
    hing_lb, hing_ub, hstyle_lb, hstyle_ub, hlvl_lb, hlvl_ub⟩

/-- C2 counterexample: on a single top-K document containing both of the two
query ingredients, the code's fitness is `views + 2000·2 = 4000` (the
ingredient component is a mean COUNT, here 2), while the claimed formula
with a mean FRACTION gives `views + 2000·1 = 2000`; so the ingredient
component is not a rate in `[0, 1]` and the claimed formula does not equal
the code's fitness. -/
theorem C2_fitness_counterexample :
    objectiveA initParams
        [Doc.mk "tofu onion soup" (Metadata.mk none (some (.intV 0)) none none none)]
        ["tofu", "onion"] ""
      = some (-(4000 : ℝ)) ∧
    fitness_rate_spec initParams
        [Doc.mk "tofu onion soup" (Metadata.mk none (some (.intV 0)) none none none)]
        ["tofu", "onion"] ""
      = some (2000 : ℝ) ∧
    (4000 : ℝ) ≠ 2000 := by
  set d2 : Doc :=
    Doc.mk "tofu onion soup" (Metadata.mk none (some (.intV 0)) none none none) with hd2
  have h1 : topA initParams [d2] ["tofu", "onion"] "" = some [d2] := rfl
  have h2 : views_meanA [d2] = some 0 := by
    rw [views_meanA]
    have hvs : ([d2].mapM fun d => pyInt (d.metadata.views.getD (.intV 0)))
        = some [(0 : ℤ)] := rfl
    rw [hvs]
    simp only [Option.bind_eq_bind, Option.some_bind]
    simp [npMean]
  have hcount : ing_countA ["tofu", "onion"] "tofu onion soup" = 2 := rfl
  have h3 : ing_meanA ["tofu", "onion"] [d2] = some 2 := by
    rw [ing_meanA]
    simp [npMean, hcount]
  have h3r : npMean ([d2].map fun d =>
        (ing_countA ["tofu", "onion"] d.page_content : ℝ) / (["tofu", "onion"].length))
      = some 1 := by
    simp [npMean, hcount]
  have h4 : style_meanA "" [d2] = some 0 := by
    rw [style_meanA]
    simp [npMean, show style_matchA "" d2 = false from rfl]
  have h5 : level_meanA [d2] = some 0 := by
    rw [level_meanA]
    simp [npMean, show level_matchA d2 = false from rfl]
  refine ⟨?_, ?_, by norm_num⟩
  · rw [objectiveA, h1]
    simp only [Option.bind_eq_bind, Option.some_bind]
    rw [h2]
    simp only [Option.some_bind]
    rw [h3]
    simp only [Option.some_bind]
    rw [h4]
    simp only [Option.some_bind]
    rw [h5]
    simp only [Option.some_bind]
    norm_num
  · rw [fitness_rate_spec, h1]
    simp only [Option.bind_eq_bind, Option.some_bind]
    rw [h2]
    simp only [Option.some_bind]
    rw [h3r]
    simp only [Option.some_bind]
    rw [h4]
    simp only [Option.some_bind]
    rw [h5]
    simp only [Option.some_bind]
    norm_num

/-- C2 witness: the decomposition applied to one document with views 3. -/
theorem C2_fitness_decomposition_amended_witness :
    ∃ (top : List Doc) (views ing style lvl : ℝ),
      topA initParams
          [Doc.mk "tofu stew" (Metadata.mk none (some (.intV 3)) none none none)]
          ["tofu"] ""
        = some top ∧ top ≠ [] ∧
      views_meanA top = some views ∧ ing_meanA ["tofu"] top = some ing ∧
      style_meanA "" top = some style ∧ level_meanA top = some lvl ∧
      objectiveA initParams
          [Doc.mk "tofu stew" (Metadata.mk none (some (.intV 3)) none none none)]
          ["tofu"] ""
        = some (-(views + 2000 * ing + 1000 * style + 500 * lvl)) ∧
      0 ≤ ing ∧ ing ≤ ((["tofu"] : List String).length : ℝ) ∧
      0 ≤ style ∧ style ≤ 1 ∧ 0 ≤ lvl ∧ lvl ≤ 1 :=
  C2_fitness_decomposition_amended initParams
    [Doc.mk "tofu stew" (Metadata.mk none (some (.intV 3)) none none none)]
    ["tofu"] "" (List.cons_ne_nil _ _)
    (by intro d hd; rcases List.mem_singleton.mp hd with h; subst h; rfl)

end ModuRAG
